import Mathlib

/-!
Verification of the chunking / caching / retry / concurrency pipeline of the
characterfile repository (tweets2character and its sibling script variants).

The JavaScript source is shallowly embedded: every definition below mirrors a
concrete function of the source.  JavaScript Set construction is modelled by a
first-occurrence dedup (for primitive string members, where reference equality
and value equality coincide) together with a reference-tagged wrapper type
JsObj for heap objects (where the JS Set compares references, never structural
values).  Asynchronous loops are modelled with an explicit iteration budget; a
result of none for the budget-indexed run of an unbounded loop means the loop
has not yet produced a value within that many iterations.
-/

set_option autoImplicit false

namespace Characterfile

/-- Model of a JS heap object: a reference identity paired with the structural
value it holds.  Two JsObj values are equal iff both the reference and the
value agree; independently parsed JSON results always carry distinct refs. -/
structure JsObj (α : Type) where
  ref : Nat
  val : α
deriving DecidableEq, Repr

/-- Worker for jsSetDedup: keeps the first occurrence of each element not
already seen, in input order. -/
def jsSetDedupGo {α : Type} [DecidableEq α] (seen : List α) : List α → List α
  | [] => []
  | x :: xs => if x ∈ seen then jsSetDedupGo seen xs else x :: jsSetDedupGo (x :: seen) xs

/-- First-occurrence deduplication, the semantics of the JS idiom
spreading a freshly built Set back into an array. -/
def jsSetDedup {α : Type} [DecidableEq α] (l : List α) : List α :=
  jsSetDedupGo [] l

/-- One message of a message example: the user field and the content text. -/
abbrev Message := String × String

/-- The style object of an extraction result, with its three facets. -/
structure StyleObj where
  all : List String
  chat : List String
  post : List String
deriving DecidableEq, Repr

/-- Structured per-chunk output of the LLM extraction step, as consumed by
combineAndDeduplicate in the first pipeline variant.  messageExamples entries
are JS arrays of message objects, hence carried behind JsObj references. -/
structure ExtractionResult where
  bio : List String
  lore : List String
  adjectives : List String
  topics : List String
  style : StyleObj
  messageExamples : List (JsObj (List Message))
  postExamples : List String
deriving DecidableEq, Repr

/-- The bio field of the combined document: the empty-input branch stores the
empty string while the main branch stores a flattened array. -/
inductive BioField where
  | str (s : String)
  | list (l : List String)
deriving DecidableEq, Repr

/-- Output document of the aggregator.  A field of value none models a key
that the returned JS object does not carry at all. -/
structure CombinedCharacter where
  bio : BioField
  lore : List String
  adjectives : List String
  topics : List String
  style : StyleObj
  messageExamples : Option (List (JsObj (List Message)))
  postExamples : Option (List String)
deriving DecidableEq, Repr

/-- Embedding of combineAndDeduplicate from the first pipeline variant.
On an empty result list it logs and returns an object whose literal carries
only bio, lore, adjectives, topics and style keys; otherwise it flattens each
field across the results and spreads it through a fresh Set. -/
def combineAndDeduplicate (results : List ExtractionResult) : CombinedCharacter :=
  if results = [] then
    { bio := .str ""
      lore := []
      adjectives := []
      topics := []
      style := { all := [], chat := [], post := [] }
      messageExamples := none
      postExamples := none }
  else
    { bio := .list (results.flatMap (fun r => r.bio))
      lore := jsSetDedup (results.flatMap (fun r => r.lore))
      adjectives := jsSetDedup (results.flatMap (fun r => r.adjectives))
      topics := jsSetDedup (results.flatMap (fun r => r.topics))
      style :=
        { all := jsSetDedup (results.flatMap (fun r => r.style.all))
          chat := jsSetDedup (results.flatMap (fun r => r.style.chat))
          post := jsSetDedup (results.flatMap (fun r => r.style.post)) }
      messageExamples := some (jsSetDedup (results.flatMap (fun r => r.messageExamples)))
      postExamples := some (jsSetDedup (results.flatMap (fun r => r.postExamples))) }

/-- A message example value reported identically by two different chunks. -/
def exMsg : List Message := [("{{user1}}", "hey"), ("Eliza", "whatcha need")]

/-- Sample extraction result of one chunk; its messageExamples array is the
heap object with reference 0. -/
def sampleResultA : ExtractionResult :=
  { bio := ["bio a"]
    lore := ["lore shared"]
    adjectives := ["sarcastic"]
    topics := ["quantum physics"]
    style := { all := ["short"], chat := ["cool"], post := ["no emojis"] }
    messageExamples := [⟨0, exMsg⟩]
    postExamples := ["post one"] }

/-- Sample extraction result of another chunk; value-identical messageExamples
but a fresh heap reference 1, as produced by an independent JSON parse. -/
def sampleResultB : ExtractionResult :=
  { bio := ["bio b"]
    lore := ["lore shared"]
    adjectives := ["sarcastic", "unhinged"]
    topics := ["metaphysics"]
    style := { all := ["short"], chat := ["cool"], post := ["no emojis"] }
    messageExamples := [⟨1, exMsg⟩]
    postExamples := ["post one", "post two"] }

/-- Account identity as read from accountData[0].account. -/
structure Account where
  accountDisplayName : String
  username : String
deriving DecidableEq, Repr

/-- A post record as consumed by buildConversationThread and chunkText.
created_at is the millisecond timestamp the JS comparator extracts through
getTime; the reply link is optional. -/
structure Tweet where
  id_str : String
  created_at : Nat
  full_text : String
  in_reply_to_status_id_str : Option String
deriving DecidableEq, Repr

/-- Embedding of the inner recursive processThread of
buildConversationThread.  The accumulating list models the thread array that
each visited tweet is unshifted onto, and the string list models the visited
Set of tweet identifiers.  The first argument is an iteration budget: a result
of none means the recursion has not finished within that many calls, so any
sufficient budget witnesses termination of the JS recursion. -/
def processThread (tweets : List Tweet) :
    Nat → Option Tweet → List String → List Tweet →
    Option (List Tweet × List String)
  | 0, _, _, _ => none
  | _ + 1, none, visited, thread => some (thread, visited)
  | fuel + 1, some t, visited, thread =>
    if t.id_str ∈ visited then some (thread, visited)
    else
      match t.in_reply_to_status_id_str with
      | none => some (t :: thread, t.id_str :: visited)
      | some pid =>
        processThread tweets fuel
          (tweets.find? (fun u => u.id_str == pid))
          (t.id_str :: visited) (t :: thread)

/-- Insertion step of the ascending-by-timestamp sort applied to the thread. -/
def insertByTime (t : Tweet) : List Tweet → List Tweet
  | [] => [t]
  | u :: us =>
    if t.created_at ≤ u.created_at then t :: u :: us else u :: insertByTime t us

/-- Deterministic ascending sort by created_at, modelling the JS sort with the
getTime difference comparator. -/
def sortByTime : List Tweet → List Tweet
  | [] => []
  | t :: ts => insertByTime t (sortByTime ts)

/-- Fixed per-post header template of buildConversationThread; timestamp
rendering abstracts toLocaleString as a deterministic function of
created_at. -/
def renderPost (acc : Account) (t : Tweet) : String :=
  String.intercalate "\n"
    (["From: " ++ acc.accountDisplayName ++ " (@" ++ acc.username ++ ")",
      "Tweet ID: " ++ t.id_str] ++
     (match t.in_reply_to_status_id_str with
      | some pid => ["In Reply To: " ++ pid]
      | none => []) ++
     ["Timestamp: " ++ toString t.created_at,
      "Content:",
      t.full_text,
      "---"])

/-- The thread list after traversal, Set spread and sort, with the budget
tweets.length + 2 (shown sufficient below). -/
def buildThreadList (tweets : List Tweet) (tweet : Tweet) : List Tweet :=
  match processThread tweets (tweets.length + 2) (some tweet) [] [] with
  | some (thread, _) => sortByTime (jsSetDedup thread)
  | none => []

/-- Embedding of buildConversationThread: render each post of the rebuilt
thread and join with a blank-line separator. -/
def buildConversationThread (tweet : Tweet) (tweets : List Tweet)
    (acc : Account) : String :=
  String.intercalate "\n\n" ((buildThreadList tweets tweet).map (renderPost acc))

/-- Number of tweets whose identifier has not been visited yet; the measure
that shrinks along the traversal. -/
def unvisitedCount (tweets : List Tweet) (visited : List String) : Nat :=
  (tweets.filter (fun u => decide (u.id_str ∉ visited))).length

/-- A direct message record; only its text field is consumed by chunkText. -/
structure Dm where
  text : String
deriving DecidableEq, Repr

/-- The character budget constant of the first chunkText variant,
50000 * 3 (approximately 50k tokens). -/
def CHUNK_SIZE : Nat := 50000 * 3

/-- Worker for batches.  The first list length is passed as a structural
countdown so the definition evaluates inside the kernel; the countdown never
runs out because each step consumes at least one element. -/
def batchesGo {α : Type} (n : Nat) : Nat → List α → List (List α)
  | _, [] => []
  | 0, _ :: _ => []
  | fuel + 1, x :: xs => (x :: xs).take n :: batchesGo n fuel (xs.drop (n - 1))

/-- Fixed-size grouping, modelling the for loops slicing the input from i to
i + n while stepping i by n. -/
def batches {α : Type} (n : Nat) (l : List α) : List (List α) :=
  batchesGo n l.length l

/-- The budget accumulation loop of the first chunkText variant over one
batch of rendered threads: an oversized thread is pushed immediately as its
own chunk; an append that would exceed the budget flushes the buffer first;
a non-empty buffer is flushed after the batch. -/
def accumulate (B : Nat) : List String → String → List String
  | [], cur => if cur.length > 0 then [cur] else []
  | t :: ts, cur =>
    if t.length > B then t :: accumulate B ts cur
    else if cur.length + t.length > B then cur :: accumulate B ts t
    else accumulate B ts (cur ++ t)

/-- DM chunking of the first chunkText variant.  The map callback logs and
evaluates dm.text without returning it, so every array element is undefined,
which join renders as the empty string: a batch of k messages becomes a chunk
of k - 1 newline characters. -/
def dmChunksV1 (dms : List Dm) : List String :=
  (batches 250 dms).map (fun b => String.intercalate "\n" (b.map (fun _ => "")))

/-- DM chunking of the second chunkText variant: the batch message texts
joined with a newline separator. -/
def dmChunksV2 (dms : List Dm) : List String :=
  (batches 250 dms).map (fun b => String.intercalate "\n" (b.map (fun dm => dm.text)))

/-- Tweet-side chunking of the first variant, parameterized by the budget:
per batch of 1000 tweets, build the conversation threads and run the
accumulation loop on an empty buffer. -/
def chunkTweetsWithBudget (B : Nat) (tweets : List Tweet) (acc : Account) :
    List String :=
  ((batches 1000 tweets).map
    (fun b => accumulate B (b.map (fun tw => buildConversationThread tw tweets acc)) "")).flatten

/-- First-variant chunkText with the budget left as a parameter: tweet chunks
followed by the appended direct-message batch chunks. -/
def chunkTextWithBudget (B : Nat) (tweets : List Tweet) (dms : List Dm)
    (acc : Account) : List String :=
  chunkTweetsWithBudget B tweets acc ++ dmChunksV1 dms

/-- Embedding of the first-variant chunkText at the source constant
CHUNK_SIZE, as a function of the data it closes over. -/
def chunkText (tweets : List Tweet) (dms : List Dm) (acc : Account) :
    List String :=
  chunkTextWithBudget CHUNK_SIZE tweets dms acc

/-- A sample tweet for concrete witnesses. -/
def sampleTweet : Tweet :=
  { id_str := "1", created_at := 10, full_text := "hello world"
    in_reply_to_status_id_str := none }

/-- A sample account for concrete witnesses. -/
def sampleAccount : Account :=
  { accountDisplayName := "Tester", username := "tester" }

/-- Presence of the three style facet keys in a parsed completion result. -/
structure RawStyle where
  hasAll : Bool
  hasChat : Bool
  hasPost : Bool
deriving DecidableEq, Repr

/-- Key-presence view of a parsed completion result, exactly the keys
validateJson inspects.  The style field is none when the style key is
absent. -/
structure RawResult where
  hasBio : Bool
  hasLore : Bool
  hasAdjectives : Bool
  hasTopics : Bool
  style : Option RawStyle
deriving DecidableEq, Repr

/-- Embedding of validateJson: every required key (bio, lore, adjectives,
topics, style) must be present and the style object must carry all three
facet keys. -/
def validateJson (j : RawResult) : Bool :=
  j.hasBio && j.hasLore && j.hasAdjectives && j.hasTopics &&
    (match j.style with
     | some st => st.hasAll && st.hasChat && st.hasPost
     | none => false)

/-- A structurally invalid parsed result: no required key is present. -/
def invalidStub : RawResult :=
  { hasBio := false, hasLore := false, hasAdjectives := false
    hasTopics := false, style := none }

/-- Embedding of the do-while validate-or-repeat loop of extractInfo in both
part_000 pipeline variants, which re-issues the prompt with no attempt
ceiling.  The invoker maps the attempt number to the parsed result of that
attempt; the last argument is an iteration budget and a first component of
none means the loop is still running after that many completed attempts (the
source loop has no exit besides a validating result).  The second component
counts completion calls made. -/
def unboundedValidationLoop {R : Type} (invoke : Nat → R) (valid : R → Bool) :
    Nat → Nat → Option R × Nat
  | attempt, 0 => (none, attempt)
  | attempt, fuel + 1 =>
    if valid (invoke attempt) then (some (invoke attempt), attempt + 1)
    else unboundedValidationLoop invoke valid (attempt + 1) fuel

/-- The attempt ceiling of the bounded extractInfo variant in
scripts/folder2knowledge.js. -/
def maxAttempts : Nat := 3

/-- Worker of the bounded validate-or-repeat loop: the remaining-attempt
count reaches zero exactly when the do-while condition
attempts < maxAttempts fails, after which extractInfo returns null (the
first component none).  The second component is the attempts counter. -/
def boundedValidationLoopGo {R : Type} (invoke : Nat → R) (valid : R → Bool) :
    Nat → Nat → Option R × Nat
  | attempts, 0 => (none, attempts)
  | attempts, rem + 1 =>
    if valid (invoke attempts) then (some (invoke attempts), attempts + 1)
    else boundedValidationLoopGo invoke valid (attempts + 1) rem

/-- Embedding of the bounded retry/validation behaviour of extractInfo in
scripts/folder2knowledge.js for a non-throwing completion invoker: run the
do-while loop starting from zero attempts with maxAttempts = 3 remaining. -/
def extractInfoBounded {R : Type} (invoke : Nat → R) (valid : R → Bool) :
    Option R × Nat :=
  boundedValidationLoopGo invoke valid 0 maxAttempts

/-- Embedding of the caching prefix of extractInfo in the first part_000
variant: when both the prompt artifact and the response artifact of the chunk
index are cached, the cached response is returned before any completion call;
otherwise the unbounded validation loop runs.  The second component counts
completion invoker calls. -/
def extractInfo {R : Type} (prompts : Nat → Option String)
    (resps : Nat → Option R) (invoke : Nat → R) (valid : R → Bool)
    (fuel : Nat) (i : Nat) : Option R × Nat :=
  if (prompts i).isSome && (resps i).isSome then (resps i, 0)
  else unboundedValidationLoop invoke valid 0 fuel

/-- Embedding of extractInfoFromChunks in the first part_000 variant: chunk
indices with a cached response are collected directly as cachedResults; the
remaining indices become extraction tasks whose non-null results are appended
after the cached ones; the second component totals the completion calls of
the tasks. -/
def extractInfoFromChunks {R : Type} (prompts : Nat → Option String)
    (resps : Nat → Option R) (invoke : Nat → Nat → R) (valid : R → Bool)
    (fuel : Nat) (n : Nat) : List R × Nat :=
  let idx := List.range n
  let cachedResults := idx.filterMap resps
  let taskOuts := (idx.filter (fun i => (resps i).isNone)).map
    (fun i => extractInfo prompts resps (invoke i) valid fuel i)
  (cachedResults ++ taskOuts.filterMap (fun p => p.1),
   (taskOuts.map (fun p => p.2)).sum)

/-- A fully cached prompt store for concrete witnesses. -/
def samplePrompts : Nat → Option String := fun _ => some "cached prompt"

/-- A partially cached response store for concrete witnesses: chunk index 0
has a cached response, every later index does not. -/
def samplePartialResps : Nat → Option Nat := fun j => if j = 0 then some 10 else none

/-- A concrete completion invoker for witnesses; it answers 100 for chunk 0
and 7 for every other chunk. -/
def sampleInvokeA : Nat → Nat → Nat := fun i _ => if i = 0 then 100 else 7

/-- A second concrete invoker that differs from sampleInvokeA exactly on the
cached chunk index 0, where the pipeline must never consult it. -/
def sampleInvokeB : Nat → Nat → Nat := fun i _ => if i = 0 then 200 else 7

/-- A concrete validity predicate for witnesses. -/
def sampleValid : Nat → Bool := fun _ => true

/-- State of the limitConcurrency model: the pending task queue, the tasks in
flight and the results recorded so far.  A task is modelled by its observable
outcome: some v for a task resolving with v, none for a task that throws
(the catch branch of the runner records null for it and keeps going). -/
structure LimState (α : Type) where
  queue : List (Option α)
  running : List (Option α)
  results : List (Option α)
deriving DecidableEq, Repr

/-- Initial limiter state: the Math.min(concurrencyLimit, tasks.length)
initial runners each shift one task off the queue and start it. -/
def limInit {α : Type} (tasks : List (Option α)) (n : Nat) : LimState α :=
  { queue := tasks.drop n, running := tasks.take n, results := [] }

/-- One scheduler step of the limiter: an in-flight task chosen by the
scheduler completes, its outcome (null when it throws) is pushed onto
results, and its runner immediately shifts the next queued task into flight.
With nothing in flight the state is final and the step idles.  The getD
default is never consulted because the chosen index is reduced modulo the
length of the non-empty running list. -/
def limStep {α : Type} (s : LimState α) (choice : Nat) : LimState α :=
  if s.running.length = 0 then s
  else
    let t := (s.running.getD (choice % s.running.length)) none
    let running2 := s.running.eraseIdx (choice % s.running.length)
    match s.queue with
    | [] => { queue := [], running := running2, results := s.results ++ [t] }
    | q :: qs => { queue := qs, running := running2 ++ [q], results := s.results ++ [t] }

/-- A run of the limiter under a completion schedule: fold the schedule over
the initial state.  Each schedule entry picks which in-flight task finishes
next; this is the only nondeterminism the JS event loop exposes here. -/
def limRun {α : Type} (tasks : List (Option α)) (n : Nat) (sched : List Nat) :
    LimState α :=
  sched.foldl limStep (limInit tasks n)

theorem mem_jsSetDedupGo {α : Type} [DecidableEq α] (a : α) :
    ∀ (l seen : List α), a ∈ jsSetDedupGo seen l ↔ a ∈ l ∧ a ∉ seen
  | [], seen => by simp [jsSetDedupGo]
  | x :: xs, seen => by
    rw [jsSetDedupGo]
    by_cases hx : x ∈ seen
    · rw [if_pos hx, mem_jsSetDedupGo a xs seen]
      constructor
      · rintro ⟨h1, h2⟩
        exact ⟨List.mem_cons_of_mem x h1, h2⟩
      · rintro ⟨h1, h2⟩
        rcases List.mem_cons.mp h1 with h1 | h1
        · exact absurd (h1 ▸ hx) h2
        · exact ⟨h1, h2⟩
    · rw [if_neg hx]
      by_cases hax : a = x
      · subst hax; simp [hx]
      · simp only [List.mem_cons, hax, false_or]
        rw [mem_jsSetDedupGo a xs (x :: seen)]
        simp [hax]

theorem jsSetDedupGo_nodup {α : Type} [DecidableEq α] :
    ∀ (l seen : List α), (jsSetDedupGo seen l).Nodup
  | [], _ => by simp [jsSetDedupGo]
  | x :: xs, seen => by
    rw [jsSetDedupGo]
    by_cases hx : x ∈ seen
    · rw [if_pos hx]
      exact jsSetDedupGo_nodup xs seen
    · rw [if_neg hx]
      refine List.nodup_cons.mpr ⟨?_, jsSetDedupGo_nodup xs (x :: seen)⟩
      intro hmem
      exact ((mem_jsSetDedupGo x xs (x :: seen)).mp hmem).2 (List.mem_cons_self x seen)

theorem mem_jsSetDedup {α : Type} [DecidableEq α] (a : α) (l : List α) :
    a ∈ jsSetDedup l ↔ a ∈ l := by
  rw [jsSetDedup, mem_jsSetDedupGo]
  simp

theorem jsSetDedup_nodup {α : Type} [DecidableEq α] (l : List α) :
    (jsSetDedup l).Nodup :=
  jsSetDedupGo_nodup l []

theorem count_jsSetDedup {α : Type} [DecidableEq α] (a : α) (l : List α) :
    (jsSetDedup l).count a = if a ∈ l then 1 else 0 := by
  by_cases h : a ∈ l
  · simp only [h, if_true]
    exact List.count_eq_one_of_mem (jsSetDedup_nodup l) ((mem_jsSetDedup a l).mpr h)
  · simp only [h, if_false]
    exact List.count_eq_zero.mpr (fun hc => h ((mem_jsSetDedup a l).mp hc))

/-- C7 counterexample: the aggregator does not deduplicate message examples by
value.  Two chunks reporting the value-identical message example exMsg behind
distinct heap references both survive the Set spread, so the combined document
contains that value twice, not exactly once as the claim states. -/
theorem combine_messageExamples_value_dup :
    (((combineAndDeduplicate [sampleResultA, sampleResultB]).messageExamples.getD
        []).map JsObj.val).count exMsg = 2 := by decide

/-- C7 (amended): the aggregator output contains each value of every
string-valued set field (lore, adjectives, topics, the three style facets,
post examples) exactly once, deduplicating by value equality across all
inputs; message examples are deduplicated only by heap-object identity. -/
theorem combine_string_fields_value_dedup (results : List ExtractionResult)
    (s : String) :
    (combineAndDeduplicate results).lore.count s
        = (if ∃ r ∈ results, s ∈ r.lore then 1 else 0) ∧
    (combineAndDeduplicate results).adjectives.count s
        = (if ∃ r ∈ results, s ∈ r.adjectives then 1 else 0) ∧
    (combineAndDeduplicate results).topics.count s
        = (if ∃ r ∈ results, s ∈ r.topics then 1 else 0) ∧
    (combineAndDeduplicate results).style.all.count s
        = (if ∃ r ∈ results, s ∈ r.style.all then 1 else 0) ∧
    (combineAndDeduplicate results).style.chat.count s
        = (if ∃ r ∈ results, s ∈ r.style.chat then 1 else 0) ∧
    (combineAndDeduplicate results).style.post.count s
        = (if ∃ r ∈ results, s ∈ r.style.post then 1 else 0) ∧
    ((combineAndDeduplicate results).postExamples.getD []).count s
        = (if ∃ r ∈ results, s ∈ r.postExamples then 1 else 0) := by
  by_cases h : results = []
  · subst h
    simp [combineAndDeduplicate]
  · simp [combineAndDeduplicate, h, count_jsSetDedup, List.mem_flatMap]

/-- C8 counterexample: on the empty input list the aggregator returns an
object literal that carries no messageExamples and no postExamples key at all,
so those two fields are absent rather than present-and-empty. -/
theorem combine_empty_absent_fields :
    (combineAndDeduplicate []).messageExamples = none ∧
    (combineAndDeduplicate []).postExamples = none := by decide

/-- C8 (amended): on the empty input list the aggregator returns, without
failing, a document whose bio is the empty string and whose lore, adjectives,
topics and three style facets are empty lists, while the messageExamples and
postExamples keys are absent from the returned object. -/
theorem combine_empty_returns_defaults :
    combineAndDeduplicate [] =
      { bio := .str ""
        lore := []
        adjectives := []
        topics := []
        style := { all := [], chat := [], post := [] }
        messageExamples := none
        postExamples := none } := by decide

theorem unvisitedCount_le (tweets : List Tweet) (visited : List String)
    (s : String) : unvisitedCount tweets (s :: visited) ≤ unvisitedCount tweets visited := by
  refine List.Sublist.length_le (List.monotone_filter_right _ ?_)
  intro u hu
  simp only [decide_eq_true_eq, List.mem_cons, not_or] at hu ⊢
  exact hu.2

theorem unvisitedCount_lt (tweets : List Tweet) (visited : List String)
    {t : Tweet} (hmem : t ∈ tweets) (hvis : t.id_str ∉ visited) :
    unvisitedCount tweets (t.id_str :: visited) < unvisitedCount tweets visited := by
  have hsub : List.Sublist
      (tweets.filter (fun u => decide (u.id_str ∉ t.id_str :: visited)))
      (tweets.filter (fun u => decide (u.id_str ∉ visited))) := by
    refine List.monotone_filter_right _ ?_
    intro u hu
    simp only [decide_eq_true_eq, List.mem_cons, not_or] at hu ⊢
    exact hu.2
  have hle := List.Sublist.length_le hsub
  rcases Nat.lt_or_ge (unvisitedCount tweets (t.id_str :: visited))
      (unvisitedCount tweets visited) with h | h
  · exact h
  · exfalso
    have heq : unvisitedCount tweets (t.id_str :: visited)
        = unvisitedCount tweets visited := Nat.le_antisymm hle h
    have hlists := hsub.eq_of_length heq
    have htin : t ∈ tweets.filter (fun u => decide (u.id_str ∉ visited)) := by
      refine List.mem_filter.mpr ⟨hmem, by simp [hvis]⟩
    rw [← hlists] at htin
    have := (List.mem_filter.mp htin).2
    simp at this

theorem processThread_isSome_of_mem (tweets : List Tweet) :
    ∀ (fuel : Nat) (cur : Option Tweet) (visited : List String)
      (thread : List Tweet),
      (cur = none ∨ ∃ t, cur = some t ∧ t ∈ tweets) →
      unvisitedCount tweets visited < fuel →
      (processThread tweets fuel cur visited thread).isSome := by
  intro fuel
  induction fuel with
  | zero => intro cur visited thread _ hlt; omega
  | succ n ih =>
    intro cur visited thread hcur hlt
    rcases hcur with hcur | ⟨t, rfl, htmem⟩
    · subst hcur; simp [processThread]
    · rw [processThread]
      by_cases hvis : t.id_str ∈ visited
      · simp [hvis]
      · simp only [hvis, if_false]
        match hrep : t.in_reply_to_status_id_str with
        | none => simp
        | some pid =>
          apply ih
          · match hfind : tweets.find? (fun u => u.id_str == pid) with
            | none => exact Or.inl hfind
            | some u => exact Or.inr ⟨u, hfind, List.mem_of_find?_eq_some hfind⟩
          · have hdec := unvisitedCount_lt tweets visited htmem hvis
            omega

theorem processThread_isSome (tweets : List Tweet) (cur : Option Tweet)
    (visited : List String) (thread : List Tweet) (fuel : Nat)
    (hfuel : unvisitedCount tweets visited + 1 < fuel) :
    (processThread tweets fuel cur visited thread).isSome := by
  match fuel, cur with
  | 0, _ => omega
  | n + 1, none => simp [processThread]
  | n + 1, some t =>
    rw [processThread]
    by_cases hvis : t.id_str ∈ visited
    · simp [hvis]
    · simp only [hvis, if_false]
      match hrep : t.in_reply_to_status_id_str with
      | none => simp
      | some pid =>
        apply processThread_isSome_of_mem
        · match hfind : tweets.find? (fun u => u.id_str == pid) with
          | none => exact Or.inl hfind
          | some u => exact Or.inr ⟨u, hfind, List.mem_of_find?_eq_some hfind⟩
        · have := unvisitedCount_le tweets visited t.id_str
          omega

theorem processThread_nodup (tweets : List Tweet) :
    ∀ (fuel : Nat) (cur : Option Tweet) (visited : List String)
      (thread : List Tweet) (res : List Tweet × List String),
      (thread.map (fun t => t.id_str)).Nodup →
      (∀ t ∈ thread, t.id_str ∈ visited) →
      processThread tweets fuel cur visited thread = some res →
      (res.1.map (fun t => t.id_str)).Nodup := by
  intro fuel
  induction fuel with
  | zero => intro cur visited thread res _ _ h; simp [processThread] at h
  | succ n ih =>
    intro cur visited thread res hnd hsub heq
    match cur with
    | none =>
      simp only [processThread, Option.some.injEq] at heq
      rw [← heq]
      exact hnd
    | some t =>
      rw [processThread] at heq
      by_cases hvis : t.id_str ∈ visited
      · rw [if_pos hvis] at heq
        injection heq with heq
        rw [← heq]
        exact hnd
      · rw [if_neg hvis] at heq
        have hnd2 : ((t :: thread).map (fun t => t.id_str)).Nodup := by
          refine List.nodup_cons.mpr ⟨?_, hnd⟩
          intro hinmap
          rcases List.mem_map.mp hinmap with ⟨u, hu, hid⟩
          have hid2 : u.id_str = t.id_str := hid
          exact hvis (hid2 ▸ hsub u hu)
        have hsub2 : ∀ u ∈ t :: thread, u.id_str ∈ t.id_str :: visited := by
          intro u hu
          rcases List.mem_cons.mp hu with hu | hu
          · subst hu; exact List.mem_cons_self _ _
          · exact List.mem_cons_of_mem _ (hsub u hu)
        match hrep : t.in_reply_to_status_id_str with
        | none =>
          rw [hrep] at heq
          injection heq with heq
          rw [← heq]
          exact hnd2
        | some pid =>
          rw [hrep] at heq
          exact ih _ _ _ _ hnd2 hsub2 heq

theorem insertByTime_perm (t : Tweet) :
    ∀ l : List Tweet, List.Perm (insertByTime t l) (t :: l)
  | [] => List.Perm.refl _
  | u :: us => by
    rw [insertByTime]
    by_cases h : t.created_at ≤ u.created_at
    · rw [if_pos h]
    · rw [if_neg h]
      exact List.Perm.trans (List.Perm.cons u (insertByTime_perm t us))
        (List.Perm.swap t u us)

theorem sortByTime_perm : ∀ l : List Tweet, List.Perm (sortByTime l) l
  | [] => List.Perm.refl _
  | t :: ts =>
    List.Perm.trans (insertByTime_perm t (sortByTime ts))
      (List.Perm.cons t (sortByTime_perm ts))

theorem jsSetDedupGo_sublist {α : Type} [DecidableEq α] :
    ∀ (l seen : List α), List.Sublist (jsSetDedupGo seen l) l
  | [], _ => List.Sublist.refl _
  | x :: xs, seen => by
    rw [jsSetDedupGo]
    by_cases h : x ∈ seen
    · rw [if_pos h]
      exact List.Sublist.cons x (jsSetDedupGo_sublist xs seen)
    · rw [if_neg h]
      exact List.Sublist.cons₂ x (jsSetDedupGo_sublist xs (x :: seen))

/-- C6: for every post collection and target post, including collections with
reply cycles, the thread builder terminates (the budget tweets.length + 2
always suffices for the traversal) and the thread it renders contains no post
identifier twice. -/
theorem threadBuilder_terminates_and_nodup (tweets : List Tweet) (tweet : Tweet) :
    (processThread tweets (tweets.length + 2) (some tweet) [] []).isSome ∧
    ((buildThreadList tweets tweet).map (fun t => t.id_str)).Nodup := by
  constructor
  · apply processThread_isSome
    have : unvisitedCount tweets [] ≤ tweets.length := List.length_filter_le _ _
    omega
  · rw [buildThreadList]
    match heq : processThread tweets (tweets.length + 2) (some tweet) [] [] with
    | none => simp
    | some res =>
      have hnd : (res.1.map (fun t => t.id_str)).Nodup :=
        processThread_nodup tweets _ _ _ _ res (by simp) (by simp) heq
      have hded : ((jsSetDedup res.1).map (fun t => t.id_str)).Nodup :=
        hnd.sublist (List.Sublist.map _ (jsSetDedupGo_sublist res.1 []))
      have hperm : List.Perm ((jsSetDedup res.1).map (fun t => t.id_str))
          ((sortByTime (jsSetDedup res.1)).map (fun t => t.id_str)) :=
        List.Perm.map _ (sortByTime_perm (jsSetDedup res.1)).symm
      exact hperm.nodup hded

theorem mem_accumulate_of_oversize (B : Nat) :
    ∀ (ts : List String) (cur th : String), th ∈ ts → B < th.length →
      th ∈ accumulate B ts cur := by
  intro ts
  induction ts with
  | nil => intro cur th h _; simp at h
  | cons t ts ih =>
    intro cur th hmem hlen
    rcases List.mem_cons.mp hmem with rfl | hmem
    · rw [accumulate, if_pos (by omega)]
      exact List.mem_cons_self _ _
    · rw [accumulate]
      by_cases ht : t.length > B
      · rw [if_pos ht]
        exact List.mem_cons_of_mem _ (ih cur th hmem hlen)
      · rw [if_neg ht]
        by_cases hover : cur.length + t.length > B
        · rw [if_pos hover]
          exact List.mem_cons_of_mem _ (ih t th hmem hlen)
        · rw [if_neg hover]
          exact ih (cur ++ t) th hmem hlen

theorem accumulate_budget (B : Nat) :
    ∀ (ts : List String) (cur c : String), cur.length ≤ B →
      c ∈ accumulate B ts cur → c.length ≤ B ∨ (c ∈ ts ∧ B < c.length) := by
  intro ts
  induction ts with
  | nil =>
    intro cur c hcur hc
    rw [accumulate] at hc
    by_cases h0 : cur.length > 0
    · rw [if_pos h0] at hc
      rcases List.mem_singleton.mp hc with rfl
      exact Or.inl hcur
    · rw [if_neg h0] at hc
      simp at hc
  | cons t ts ih =>
    intro cur c hcur hc
    rw [accumulate] at hc
    by_cases ht : t.length > B
    · rw [if_pos ht] at hc
      rcases List.mem_cons.mp hc with rfl | hc
      · exact Or.inr ⟨List.mem_cons_self _ _, ht⟩
      · rcases ih cur c hcur hc with h | ⟨h1, h2⟩
        · exact Or.inl h
        · exact Or.inr ⟨List.mem_cons_of_mem _ h1, h2⟩
    · rw [if_neg ht] at hc
      by_cases hover : cur.length + t.length > B
      · rw [if_pos hover] at hc
        rcases List.mem_cons.mp hc with rfl | hc
        · exact Or.inl hcur
        · rcases ih t c (by omega) hc with h | ⟨h1, h2⟩
          · exact Or.inl h
          · exact Or.inr ⟨List.mem_cons_of_mem _ h1, h2⟩
      · rw [if_neg hover] at hc
        have hlen : (cur ++ t).length ≤ B := by
          rw [String.length_append]
          omega
        rcases ih (cur ++ t) c hlen hc with h | ⟨h1, h2⟩
        · exact Or.inl h
        · exact Or.inr ⟨List.mem_cons_of_mem _ h1, h2⟩

/-- C4: chunking is a deterministic function of the tweet list, the direct
message list and the account data it reads: two runs on equal inputs yield
equal chunk lists with identical boundaries and ordering.  The embedding is a
pure function of exactly the data the JS chunkText closes over, which is the
content of the determinism claim. -/
theorem chunkText_deterministic (t1 t2 : List Tweet) (d1 d2 : List Dm)
    (a1 a2 : Account) (ht : t1 = t2) (hd : d1 = d2) (ha : a1 = a2) :
    chunkText t1 d1 a1 = chunkText t2 d2 a2 := by
  subst ht; subst hd; subst ha; rfl

theorem chunkText_deterministic_witness :
    chunkText [sampleTweet] [⟨"dm text"⟩] sampleAccount
      = chunkText [sampleTweet] [⟨"dm text"⟩] sampleAccount :=
  chunkText_deterministic _ _ _ _ _ _ rfl rfl rfl

/-- C5: a conversation thread whose rendered text exceeds the budget is
pushed immediately as its own standalone chunk, unmodified: the exact thread
string is an element of the chunk list. -/
theorem oversize_thread_own_chunk (B : Nat) (tweets : List Tweet)
    (dms : List Dm) (acc : Account) (b : List Tweet) (th : String)
    (hb : b ∈ batches 1000 tweets)
    (hth : th ∈ b.map (fun tw => buildConversationThread tw tweets acc))
    (hlen : B < th.length) :
    th ∈ chunkTextWithBudget B tweets dms acc := by
  apply List.mem_append_left
  rw [chunkTweetsWithBudget]
  apply List.mem_flatten.mpr
  exact ⟨accumulate B (b.map (fun tw => buildConversationThread tw tweets acc)) "",
    List.mem_map_of_mem _ hb, mem_accumulate_of_oversize B _ "" th hth hlen⟩

theorem oversize_thread_own_chunk_witness :
    ([sampleTweet] ∈ batches 1000 [sampleTweet] ∧
     buildConversationThread sampleTweet [sampleTweet] sampleAccount
       ∈ [sampleTweet].map (fun tw => buildConversationThread tw [sampleTweet] sampleAccount) ∧
     1 < (buildConversationThread sampleTweet [sampleTweet] sampleAccount).length) ∧
    buildConversationThread sampleTweet [sampleTweet] sampleAccount
      ∈ chunkTextWithBudget 1 [sampleTweet] [] sampleAccount :=
  ⟨⟨by decide, by decide, by decide⟩,
   oversize_thread_own_chunk 1 [sampleTweet] [] sampleAccount [sampleTweet]
     (buildConversationThread sampleTweet [sampleTweet] sampleAccount)
     (by decide) (by decide) (by decide)⟩

/-- C9: evaluation at the failing input.  In the first chunkText variant the
direct-message chunk of the batch with texts a and b is the single newline
string, because the map callback evaluates dm.text without returning it and
join renders each undefined as the empty string; the second variant returns
the texts joined with a newline, which is what the claim describes. -/
theorem dm_chunk_callback_bug :
    dmChunksV1 [⟨"a"⟩, ⟨"b"⟩] = ["\n"] ∧
    dmChunksV2 [⟨"a"⟩, ⟨"b"⟩] = ["a\nb"] := by decide

/-- C10: the budget is a hard ceiling for accumulated chunks: every chunk of
the chunk list that is neither an oversized standalone thread nor a
direct-message batch chunk has length at most the budget. -/
theorem accumulated_chunks_within_budget (B : Nat) (tweets : List Tweet)
    (dms : List Dm) (acc : Account) (c : String)
    (hc : c ∈ chunkTextWithBudget B tweets dms acc) :
    c.length ≤ B ∨
    (∃ b ∈ batches 1000 tweets,
        c ∈ b.map (fun tw => buildConversationThread tw tweets acc) ∧
        B < c.length) ∨
    c ∈ dmChunksV1 dms := by
  rcases List.mem_append.mp hc with h | h
  · rw [chunkTweetsWithBudget] at h
    rcases List.mem_flatten.mp h with ⟨l, hl, hcl⟩
    rcases List.mem_map.mp hl with ⟨b, hb, rfl⟩
    rcases accumulate_budget B _ "" c (by simp) hcl with h1 | ⟨h2, h3⟩
    · exact Or.inl h1
    · exact Or.inr (Or.inl ⟨b, hb, h2, h3⟩)
  · exact Or.inr (Or.inr h)

theorem accumulated_chunks_within_budget_witness :
    (buildConversationThread sampleTweet [sampleTweet] sampleAccount
        ∈ chunkTextWithBudget 1000 [sampleTweet] [] sampleAccount) ∧
    ((buildConversationThread sampleTweet [sampleTweet] sampleAccount).length ≤ 1000 ∨
     (∃ b ∈ batches 1000 [sampleTweet],
        buildConversationThread sampleTweet [sampleTweet] sampleAccount
          ∈ b.map (fun tw => buildConversationThread tw [sampleTweet] sampleAccount) ∧
        1000 < (buildConversationThread sampleTweet [sampleTweet] sampleAccount).length) ∨
     buildConversationThread sampleTweet [sampleTweet] sampleAccount ∈ dmChunksV1 []) :=
  ⟨by decide,
   accumulated_chunks_within_budget 1000 [sampleTweet] [] sampleAccount
     (buildConversationThread sampleTweet [sampleTweet] sampleAccount) (by decide)⟩

theorem unbounded_loop_none_of_invalid {R : Type} (invoke : Nat → R)
    (valid : R → Bool) (h : ∀ k, valid (invoke k) = false) :
    ∀ (fuel attempt : Nat),
      (unboundedValidationLoop invoke valid attempt fuel).1 = none := by
  intro fuel
  induction fuel with
  | zero => intro attempt; rfl
  | succ m ih =>
    intro attempt
    rw [unboundedValidationLoop, if_neg (by simp [h attempt])]
    exact ih (attempt + 1)

/-- C1 counterexample: against a completion stub that always returns a
structurally invalid object, the do-while loop of extractInfo in part_000 is
still running with no reported failure after 5 re-issues (the transport retry
ceiling MAX_RETRIES) and likewise after 1000 re-issues, far beyond every
attempt ceiling appearing in the source (3 and 5): the cited loop has no
attempt ceiling at all, so it does not terminate with a null report. -/
theorem unbounded_loop_still_running :
    (unboundedValidationLoop (fun _ => invalidStub) validateJson 0 5).1 = none ∧
    (unboundedValidationLoop (fun _ => invalidStub) validateJson 0 1000).1 = none :=
  ⟨unbounded_loop_none_of_invalid _ _ (fun _ => rfl) 5 0,
   unbounded_loop_none_of_invalid _ _ (fun _ => rfl) 1000 0⟩

/-- C1 (amended): in the bounded pipeline variant
(scripts/folder2knowledge.js), a completion invoker that always returns a
structurally invalid result makes extractInfo re-issue the prompt exactly
maxAttempts = 3 times and then terminate, reporting the chunk as a permanent
failure by returning null; the two part_000 variants instead loop without
bound on such input. -/
theorem bounded_loop_reports_failure {R : Type} (invoke : Nat → R)
    (valid : R → Bool) (h : ∀ k, valid (invoke k) = false) :
    extractInfoBounded invoke valid = (none, maxAttempts) := by
  simp [extractInfoBounded, maxAttempts, boundedValidationLoopGo, h]

theorem bounded_loop_reports_failure_witness :
    extractInfoBounded (fun _ => invalidStub) validateJson = (none, maxAttempts) :=
  bounded_loop_reports_failure (fun _ => invalidStub) validateJson (fun _ => rfl)

/-- C3: over an arbitrary, possibly partially cached store: for every chunk
index whose cached prompt and cached response are both present, extractInfo
returns the cached response with zero completion calls; every cached response
is part of the resumed run output; the run total of completion calls
is attributed entirely to the indices without a cached response; and the run
is observationally independent of the completion invoker at cached indices:
two invokers agreeing on the uncached indices give identical runs, so no call
is ever issued for a chunk index whose artifacts already exist. -/
theorem cached_artifacts_skip_invoker {R : Type} (prompts : Nat → Option String)
    (resps : Nat → Option R) (invoke invoke2 : Nat → Nat → R) (valid : R → Bool)
    (fuel : Nat) (n : Nat)
    (hagree : ∀ i < n, (resps i).isNone → invoke i = invoke2 i) :
    (∀ i, (prompts i).isSome → (resps i).isSome →
        extractInfo prompts resps (invoke i) valid fuel i = (resps i, 0)) ∧
    (∀ i < n, ∀ r : R, resps i = some r →
        r ∈ (extractInfoFromChunks prompts resps invoke valid fuel n).1) ∧
    (extractInfoFromChunks prompts resps invoke valid fuel n).2
      = (((List.range n).filter (fun i => (resps i).isNone)).map
          (fun i => (extractInfo prompts resps (invoke i) valid fuel i).2)).sum ∧
    extractInfoFromChunks prompts resps invoke valid fuel n
      = extractInfoFromChunks prompts resps invoke2 valid fuel n := by
  refine ⟨?_, ?_, ?_, ?_⟩
  · intro i hp hr
    rw [extractInfo, if_pos]
    simp [hp, hr]
  · intro i hi r hr
    rw [extractInfoFromChunks]
    simp only []
    apply List.mem_append_left
    exact List.mem_filterMap.mpr ⟨i, List.mem_range.mpr hi, hr⟩
  · rw [extractInfoFromChunks]
    simp only []
    rw [List.map_map]
    rfl
  · have htask : ((List.range n).filter (fun i => (resps i).isNone)).map
        (fun i => extractInfo prompts resps (invoke i) valid fuel i)
      = ((List.range n).filter (fun i => (resps i).isNone)).map
        (fun i => extractInfo prompts resps (invoke2 i) valid fuel i) := by
      apply List.map_congr_left
      intro i hi2
      have hmem := List.mem_filter.mp hi2
      have hin : i < n := List.mem_range.mp hmem.1
      have hnone : (resps i).isNone := by simpa using hmem.2
      rw [hagree i hin hnone]
    rw [extractInfoFromChunks, extractInfoFromChunks]
    simp only [htask]

theorem cached_artifacts_skip_invoker_witness :
    ((∀ i, (samplePrompts i).isSome → (samplePartialResps i).isSome →
        extractInfo samplePrompts samplePartialResps (sampleInvokeA i)
          sampleValid 5 i = (samplePartialResps i, 0)) ∧
     (∀ i < 2, ∀ r : Nat, samplePartialResps i = some r →
        r ∈ (extractInfoFromChunks samplePrompts samplePartialResps
          sampleInvokeA sampleValid 5 2).1) ∧
     (extractInfoFromChunks samplePrompts samplePartialResps sampleInvokeA
          sampleValid 5 2).2
       = (((List.range 2).filter (fun i => (samplePartialResps i).isNone)).map
          (fun i => (extractInfo samplePrompts samplePartialResps
            (sampleInvokeA i) sampleValid 5 i).2)).sum ∧
     extractInfoFromChunks samplePrompts samplePartialResps sampleInvokeA
        sampleValid 5 2
       = extractInfoFromChunks samplePrompts samplePartialResps sampleInvokeB
          sampleValid 5 2) ∧
    (extractInfoFromChunks samplePrompts samplePartialResps sampleInvokeA
        sampleValid 5 2).1 = [10, 7] :=
  ⟨cached_artifacts_skip_invoker samplePrompts samplePartialResps sampleInvokeA
      sampleInvokeB sampleValid 5 2
      (fun i _ hn => by
        match i with
        | 0 => simp [samplePartialResps] at hn
        | j + 1 => rfl),
   by decide⟩

theorem getD_eq_get {α : Type} :
    ∀ (l : List α) (i : Nat) (d : α) (h : i < l.length),
      l.getD i d = l.get ⟨i, h⟩
  | _ :: _, 0, _, _ => rfl
  | _ :: xs, i + 1, d, h => getD_eq_get xs i d (by simpa using h)

theorem perm_get_cons_eraseIdx {α : Type} :
    ∀ (l : List α) (i : Nat) (h : i < l.length),
      List.Perm l (l.get ⟨i, h⟩ :: l.eraseIdx i)
  | x :: xs, 0, _ => by simp
  | x :: xs, i + 1, h => by
    have hi : i < xs.length := by simpa using h
    have hrec := perm_get_cons_eraseIdx xs i hi
    simp only [List.get_cons_succ, List.eraseIdx_cons_succ]
    exact List.Perm.trans (List.Perm.cons x hrec) (List.Perm.swap _ _ _)

/-- Invariant of the limiter run: the in-flight set respects the ceiling, the
ceiling stays saturated while the queue is non-empty, and queue, in-flight
set and results together always hold exactly the submitted tasks. -/
def LimInv {α : Type} (tasks : List (Option α)) (n : Nat) (s : LimState α) : Prop :=
  s.running.length ≤ n ∧
  (s.queue ≠ [] → s.running.length = n) ∧
  List.Perm (s.queue ++ s.running ++ s.results) tasks

theorem limInit_inv {α : Type} (tasks : List (Option α)) (n : Nat) :
    LimInv tasks n (limInit tasks n) := by
  refine ⟨?_, ?_, ?_⟩
  · simp [limInit]
  · intro hq
    have hlt : n < tasks.length := by
      by_contra hge
      exact hq (List.drop_eq_nil_of_le (by omega))
    simp [limInit]
    omega
  · show List.Perm (tasks.drop n ++ tasks.take n ++ []) tasks
    rw [List.append_nil]
    exact List.Perm.trans (List.perm_append_comm) (by rw [List.take_append_drop])

theorem perm_rotate_result {α : Type} (r r2 results : List α) (g : α)
    (hperm : List.Perm r (g :: r2)) :
    List.Perm (r2 ++ (results ++ [g])) (r ++ results) := by
  rw [← List.append_assoc]
  refine List.Perm.trans (List.perm_append_singleton g (r2 ++ results)) ?_
  exact List.Perm.append_right results hperm.symm

theorem limStep_inv {α : Type} (tasks : List (Option α)) (n : Nat)
    (s : LimState α) (c : Nat) (hinv : LimInv tasks n s) :
    LimInv tasks n (limStep s c) := by
  obtain ⟨hlen, hsat, hms⟩ := hinv
  rw [limStep]
  by_cases h0 : s.running.length = 0
  · rw [if_pos h0]
    exact ⟨hlen, hsat, hms⟩
  · rw [if_neg h0]
    have hpos : 0 < s.running.length := Nat.pos_of_ne_zero h0
    have hi : c % s.running.length < s.running.length := Nat.mod_lt _ hpos
    have hgetd : s.running.getD (c % s.running.length) none
        = s.running.get ⟨c % s.running.length, hi⟩ := getD_eq_get _ _ _ hi
    have hperm : List.Perm s.running
        (s.running.get ⟨c % s.running.length, hi⟩
          :: s.running.eraseIdx (c % s.running.length)) :=
      perm_get_cons_eraseIdx _ _ hi
    have herase : (s.running.eraseIdx (c % s.running.length)).length + 1
        = s.running.length := List.length_eraseIdx_add_one hi
    have hshift : List.Perm
        (s.running.eraseIdx (c % s.running.length)
          ++ (s.results ++ [s.running.get ⟨c % s.running.length, hi⟩]))
        (s.running ++ s.results) :=
      perm_rotate_result _ _ _ _ hperm
    match hq : s.queue with
    | [] =>
      rw [hq] at hms
      rw [List.nil_append] at hms
      refine ⟨?_, by simp, ?_⟩
      · show (s.running.eraseIdx (c % s.running.length)).length ≤ n
        omega
      · show List.Perm ([] ++ s.running.eraseIdx (c % s.running.length)
            ++ (s.results ++ [s.running.getD (c % s.running.length) none])) tasks
        rw [hgetd, List.nil_append]
        exact hshift.trans hms
    | q :: qs =>
      rw [hq] at hsat hms
      have hn2 : s.running.length = n := hsat (by simp)
      refine ⟨?_, ?_, ?_⟩
      · show (s.running.eraseIdx (c % s.running.length) ++ [q]).length ≤ n
        simp only [List.length_append, List.length_cons, List.length_nil]
        omega
      · intro _
        show (s.running.eraseIdx (c % s.running.length) ++ [q]).length = n
        simp only [List.length_append, List.length_cons, List.length_nil]
        omega
      · show List.Perm (qs ++ (s.running.eraseIdx (c % s.running.length) ++ [q])
            ++ (s.results ++ [s.running.getD (c % s.running.length) none])) tasks
        rw [hgetd]
        refine List.Perm.trans ?_ hms
        have hA : List.Perm
            (qs ++ (s.running.eraseIdx (c % s.running.length) ++ [q]))
            ((q :: qs) ++ s.running.eraseIdx (c % s.running.length)) := by
          rw [← List.append_assoc]
          exact List.perm_append_singleton q _
        refine List.Perm.trans
          (hA.append_right (s.results
            ++ [s.running.get ⟨c % s.running.length, hi⟩])) ?_
        rw [List.append_assoc, List.append_assoc]
        exact hshift.append_left (q :: qs)

theorem limStep_measure {α : Type} (s : LimState α) (c : Nat)
    (h0 : s.running.length ≠ 0) :
    (limStep s c).queue.length + (limStep s c).running.length + 1
      = s.queue.length + s.running.length := by
  rw [limStep, if_neg h0]
  have hpos : 0 < s.running.length := Nat.pos_of_ne_zero h0
  have hi : c % s.running.length < s.running.length := Nat.mod_lt _ hpos
  have herase : (s.running.eraseIdx (c % s.running.length)).length + 1
      = s.running.length := List.length_eraseIdx_add_one hi
  match hq : s.queue with
  | [] => simp; omega
  | q :: qs => simp; omega

theorem limFold_inv {α : Type} (tasks : List (Option α)) (n : Nat) :
    ∀ (sched : List Nat) (s : LimState α), LimInv tasks n s →
      LimInv tasks n (sched.foldl limStep s)
  | [], _, hinv => hinv
  | c :: rest, s, hinv =>
    limFold_inv tasks n rest (limStep s c) (limStep_inv tasks n s c hinv)

theorem limFold_complete {α : Type} (tasks : List (Option α)) (n : Nat)
    (hn : 1 ≤ n) :
    ∀ (sched : List Nat) (s : LimState α), LimInv tasks n s →
      s.queue.length + s.running.length ≤ sched.length →
      (sched.foldl limStep s).queue = [] ∧ (sched.foldl limStep s).running = [] := by
  intro sched
  induction sched with
  | nil =>
    intro s hinv hm
    simp only [List.length_nil] at hm
    simp only [List.foldl_nil]
    constructor
    · exact List.eq_nil_of_length_eq_zero (by omega)
    · exact List.eq_nil_of_length_eq_zero (by omega)
  | cons c rest ih =>
    intro s hinv hm
    rw [List.foldl_cons]
    by_cases h0 : s.running.length = 0
    · have hqnil : s.queue = [] := by
        by_contra hq
        have := hinv.2.1 hq
        omega
      have hstep : limStep s c = s := by rw [limStep, if_pos h0]
      rw [hstep]
      refine ih s hinv ?_
      simp [hqnil] at hm ⊢
      omega
    · have hinv2 := limStep_inv tasks n s c hinv
      have hmeas := limStep_measure s c h0
      refine ih (limStep s c) hinv2 ?_
      simp only [List.length_cons] at hm
      omega

/-- C2 counterexample: with a parallelism ceiling of 0 the source starts
Array(Math.min(0, tasks.length)) = zero runners and resolves immediately, so
a submitted task is never awaited: the returned result list is empty instead
of containing one entry per submitted task. -/
theorem limitConcurrency_zero_ceiling_drops_tasks :
    (limRun [(some 42 : Option Nat)] 0 [0, 0, 0]).results = [] ∧
    (limRun [(some 42 : Option Nat)] 0 [0, 0, 0]).queue = [some 42] := by
  decide

/-- C2 (amended): for every task list, every ceiling n of at least 1 and
every completion schedule long enough to finish the run, the limiter never
has more than n tasks in flight at any point, and finishes having awaited
every submitted task exactly once: the queue and in-flight set drain and the
recorded results, including the null recorded for every throwing task, are a
permutation of the task outcomes, one entry per submitted task; a throwing
task aborts neither its siblings nor the run. -/
theorem limitConcurrency_spec {α : Type} (tasks : List (Option α)) (n : Nat)
    (sched : List Nat) (hn : 1 ≤ n) (hlen : tasks.length ≤ sched.length) :
    (∀ k : Nat, (limRun tasks n (sched.take k)).running.length ≤ n) ∧
    (limRun tasks n sched).queue = [] ∧
    (limRun tasks n sched).running = [] ∧
    List.Perm (limRun tasks n sched).results tasks := by
  have hminit : (limInit tasks n).queue.length + (limInit tasks n).running.length
      = tasks.length := by
    simp [limInit]
    omega
  have hcomp := limFold_complete tasks n hn sched (limInit tasks n)
    (limInit_inv tasks n) (by omega)
  have hfin := limFold_inv tasks n sched (limInit tasks n) (limInit_inv tasks n)
  refine ⟨?_, hcomp.1, hcomp.2, ?_⟩
  · intro k
    exact (limFold_inv tasks n (sched.take k) (limInit tasks n)
      (limInit_inv tasks n)).1
  · have hms := hfin.2.2
    simp only [limRun] at hcomp hms ⊢
    rw [hcomp.1, hcomp.2] at hms
    simpa using hms

theorem limitConcurrency_spec_witness :
    (∀ k : Nat,
      (limRun [some 1, none, some 2] 2 ([0, 1, 0].take k)).running.length ≤ 2) ∧
    (limRun [some 1, none, some 2] 2 [0, 1, 0]).queue = [] ∧
    (limRun [some 1, none, some 2] 2 [0, 1, 0]).running = [] ∧
    List.Perm (limRun [some 1, none, some 2] 2 [0, 1, 0]).results
      [some 1, none, some 2] :=
  limitConcurrency_spec [some 1, none, some 2] 2 [0, 1, 0] (by decide) (by decide)

end Characterfile
